import Mathlib

/-!
Shallow embedding of the UnityBuildV3 pipeline task
(src/Tasks/UnityBuild/UnityBuildV3/unity-build.ts) and proofs about it.

Strings are modelled as lists of characters; the JavaScript string
operations used by the task (split, trim, indexOf, substr) are given
as executable definitions with JS semantics.  External collaborators
(the pipeline task library, the fs library, the path module, the
Unity process) are modelled as explicit state transformers over a
run state holding the file system, the pipeline variables, the files
written and the process invocation.
-/

set_option maxHeartbeats 1000000

namespace UnityBuildV3

/-- Strings of the embedded program, as lists of characters. -/
abbrev Chars := List Char

/-- Whitespace characters removed by the JavaScript trim operation. -/
def isJsSpace (c : Char) : Bool :=
  c = ' ' || c = '\t' || c = '\n' || c = '\r'

/-- JS String.prototype.trimStart: drop leading whitespace. -/
def jsTrimLeft (s : Chars) : Chars := s.dropWhile isJsSpace

/-- JS String.prototype.trimEnd: drop trailing whitespace. -/
def jsTrimRight (s : Chars) : Chars := (s.reverse.dropWhile isJsSpace).reverse

/-- JS String.prototype.trim: drop leading and trailing whitespace. -/
def jsTrim (s : Chars) : Chars := jsTrimRight (jsTrimLeft s)

/-- JS String.prototype.indexOf for a pattern string: index of the first
occurrence of pat in s, or none. -/
def idxOfSub : Chars → Chars → Option Nat
  | s, pat =>
    if pat.isPrefixOf s then some 0
    else
      match s with
      | [] => none
      | _ :: t => (idxOfSub t pat).map (· + 1)

/-- JS String.prototype.split with a single-character separator:
the list of (possibly empty) segments between separator occurrences. -/
def jsSplit (sep : Char) : Chars → List Chars
  | [] => [[]]
  | c :: rest =>
    if c = sep then [] :: jsSplit sep rest
    else
      match jsSplit sep rest with
      | [] => [[c]]
      | s :: ss => (c :: s) :: ss

/-- The revision marker the task strips from the project version line
(unity-build.ts line 113). -/
def revisionMarker : Chars := "m_EditorVersionWithRevision".toList

/-- The per-segment version computation of getBuildConfiguration
(unity-build.ts lines 108-119): trim the segment, and if the revision
marker occurs in the trimmed text, keep only the re-trimmed part before
the marker. -/
def codeVersionOf (seg : Chars) : Chars :=
  let t := jsTrim seg
  match idxOfSub t revisionMarker with
  | some i => jsTrim (t.take i)
  | none => t

/-- The version extraction of getBuildConfiguration (unity-build.ts lines
108-119): the segment between the first and the second colon of the
ProjectVersion.txt content, processed by codeVersionOf.  Returns none when
the content has no colon at all, in which case the JavaScript code throws
(split(...)[1] is undefined and .trim() raises a TypeError). -/
def extractUnityVersion (content : Chars) : Option Chars :=
  match (jsSplit ':' content).get? 1 with
  | none => none
  | some seg => some (codeVersionOf seg)

/-! Helper lemmas about the JS string operations. -/

theorem dropWhile_append_all {p : Char → Bool} :
    ∀ (w s : Chars), (∀ c ∈ w, p c = true) → (w ++ s).dropWhile p = s.dropWhile p
  | [], _, _ => rfl
  | c :: w, s, h => by
    have hc : p c = true := h c (by simp)
    simp only [List.cons_append, List.dropWhile_cons, hc, if_true]
    exact dropWhile_append_all w s (fun x hx => h x (by simp [hx]))

theorem jsTrim_space_append {w s : Chars} (h : ∀ c ∈ w, isJsSpace c = true) :
    jsTrim (w ++ s) = jsTrim s := by
  unfold jsTrim jsTrimLeft
  rw [dropWhile_append_all w s h]

theorem mem_takeWhile_space {p : Char → Bool} :
    ∀ (l : Chars), ∀ c ∈ l.takeWhile p, p c = true
  | [], c, h => by simp [List.takeWhile] at h
  | a :: l, c, h => by
    rw [List.takeWhile_cons] at h
    by_cases hp : p a
    · simp only [hp, if_true, List.mem_cons] at h
      rcases h with h | h
      · exact h ▸ hp
      · exact mem_takeWhile_space l c h
    · simp [hp] at h

/-- Decompose a string into leading whitespace, its trim, and trailing
whitespace. -/
theorem trim_decomp (s : Chars) :
    ∃ w₁ w₂ : Chars, (∀ c ∈ w₁, isJsSpace c = true) ∧ (∀ c ∈ w₂, isJsSpace c = true) ∧
      s = w₁ ++ (jsTrim s ++ w₂) := by
  refine ⟨s.takeWhile isJsSpace, ((jsTrimLeft s).reverse.takeWhile isJsSpace).reverse,
    mem_takeWhile_space s, ?_, ?_⟩
  · intro c hc
    rw [List.mem_reverse] at hc
    exact mem_takeWhile_space _ c hc
  · have h1 : s = s.takeWhile isJsSpace ++ jsTrimLeft s :=
      (List.takeWhile_append_dropWhile isJsSpace s).symm
    have h2 : jsTrimLeft s =
        jsTrim s ++ ((jsTrimLeft s).reverse.takeWhile isJsSpace).reverse := by
      have h3 : (jsTrimLeft s).reverse =
          (jsTrimLeft s).reverse.takeWhile isJsSpace ++ (jsTrimLeft s).reverse.dropWhile isJsSpace :=
        (List.takeWhile_append_dropWhile isJsSpace _).symm
      have h4 := congrArg List.reverse h3
      rw [List.reverse_reverse, List.reverse_append] at h4
      exact h4
    calc s = s.takeWhile isJsSpace ++ jsTrimLeft s := h1
    _ = s.takeWhile isJsSpace ++ (jsTrim s ++ ((jsTrimLeft s).reverse.takeWhile isJsSpace).reverse) := by
          rw [← h2]

theorem isPrefixOf_append_space {pat w : Chars}
    (hpat : ∀ c ∈ pat, isJsSpace c = false) (hw : ∀ c ∈ w, isJsSpace c = true) :
    ∀ x : Chars, pat.isPrefixOf (x ++ w) = pat.isPrefixOf x := by
  induction pat with
  | nil => intro x; cases x <;> cases w <;> rfl
  | cons m mt ih =>
    intro x
    cases x with
    | nil =>
      have hcase : (m :: mt).isPrefixOf w = false := by
        cases w with
        | nil => rfl
        | cons c w2 =>
          have hm : isJsSpace m = false := hpat m (by simp)
          have hc : isJsSpace c = true := hw c (by simp)
          have hne : (m == c) = false := by
            refine beq_eq_false_iff_ne.mpr ?_
            intro heq
            rw [heq, hc] at hm
            simp at hm
          show (m == c && mt.isPrefixOf w2) = false
          rw [hne, Bool.false_and]
      simpa using hcase
    | cons a x2 =>
      show (m == a && mt.isPrefixOf (x2 ++ w)) = (m == a && mt.isPrefixOf x2)
      rw [ih (fun c hc => hpat c (by simp [hc]))]

theorem idxOfSub_cons (a : Char) (t pat : Chars) :
    idxOfSub (a :: t) pat =
      if pat.isPrefixOf (a :: t) then some 0 else (idxOfSub t pat).map (· + 1) := by
  rfl

theorem idxOfSub_nil (pat : Chars) :
    idxOfSub [] pat = if pat.isPrefixOf ([] : Chars) then some 0 else none := by
  rfl

theorem beq_false_of_space_ne {m c : Char}
    (hm : isJsSpace m = false) (hc : isJsSpace c = true) : (m == c) = false := by
  refine beq_eq_false_iff_ne.mpr ?_
  intro heq
  rw [heq, hc] at hm
  simp at hm

theorem notPrefix_cons_space {pat : Chars} {c : Char} (t : Chars)
    (hc : isJsSpace c = true) (hpat : ∀ x ∈ pat, isJsSpace x = false) (hne : pat ≠ []) :
    pat.isPrefixOf (c :: t) = false := by
  cases pat with
  | nil => exact absurd rfl hne
  | cons m mt =>
    show (m == c && mt.isPrefixOf t) = false
    rw [beq_false_of_space_ne (hpat m (by simp)) hc, Bool.false_and]

theorem idxOfSub_spaces_none {pat : Chars}
    (hpat : ∀ x ∈ pat, isJsSpace x = false) (hne : pat ≠ []) :
    ∀ w : Chars, (∀ c ∈ w, isJsSpace c = true) → idxOfSub w pat = none := by
  intro w
  induction w with
  | nil =>
    intro _
    rw [idxOfSub_nil]
    have hp : pat.isPrefixOf ([] : Chars) = false := by
      cases pat with
      | nil => exact absurd rfl hne
      | cons a l => rfl
    rw [hp]
    rfl
  | cons c t ih =>
    intro hw
    rw [idxOfSub_cons, notPrefix_cons_space t (hw c (by simp)) hpat hne]
    rw [ih (fun x hx => hw x (by simp [hx]))]
    rfl

theorem idxOfSub_append_space_right {pat w : Chars}
    (hpat : ∀ x ∈ pat, isJsSpace x = false) (hne : pat ≠ [])
    (hw : ∀ c ∈ w, isJsSpace c = true) :
    ∀ s : Chars, idxOfSub (s ++ w) pat = idxOfSub s pat := by
  intro s
  induction s with
  | nil =>
    show idxOfSub w pat = idxOfSub [] pat
    rw [idxOfSub_spaces_none hpat hne w hw, idxOfSub_nil]
    have hp : pat.isPrefixOf ([] : Chars) = false := by
      cases pat with
      | nil => exact absurd rfl hne
      | cons a l => rfl
    rw [hp]
    rfl
  | cons a t ih =>
    show idxOfSub (a :: (t ++ w)) pat = idxOfSub (a :: t) pat
    rw [idxOfSub_cons, idxOfSub_cons]
    have hpre : pat.isPrefixOf (a :: t ++ w) = pat.isPrefixOf (a :: t) :=
      isPrefixOf_append_space hpat hw (a :: t)
    rw [show (a :: (t ++ w)) = (a :: t ++ w) from rfl, hpre, ih]

theorem idxOfSub_space_shift {pat : Chars}
    (hpat : ∀ x ∈ pat, isJsSpace x = false) (hne : pat ≠ []) :
    ∀ (w s : Chars), (∀ c ∈ w, isJsSpace c = true) →
      idxOfSub (w ++ s) pat = (idxOfSub s pat).map (· + w.length) := by
  intro w
  induction w with
  | nil =>
    intro s _
    show idxOfSub s pat = (idxOfSub s pat).map (· + ([] : Chars).length)
    cases idxOfSub s pat <;> simp
  | cons c t ih =>
    intro s hw
    show idxOfSub (c :: (t ++ s)) pat = (idxOfSub s pat).map (· + (c :: t).length)
    rw [idxOfSub_cons, notPrefix_cons_space (t ++ s) (hw c (by simp)) hpat hne]
    rw [if_neg (by simp)]
    rw [ih s (fun x hx => hw x (by simp [hx]))]
    cases idxOfSub s pat with
    | none => rfl
    | some j => simp [List.length_cons, Nat.add_assoc]

theorem idxOfSub_le : ∀ (s pat : Chars) (i : Nat), idxOfSub s pat = some i → i ≤ s.length
  | [], pat, i, h => by
    rw [idxOfSub_nil] at h
    by_cases hp : pat.isPrefixOf ([] : Chars)
    · rw [if_pos hp] at h
      cases h
      exact Nat.le_refl 0
    · rw [if_neg hp] at h
      cases h
  | a :: t, pat, i, h => by
    rw [idxOfSub_cons] at h
    by_cases hp : pat.isPrefixOf (a :: t)
    · rw [if_pos hp] at h
      cases h
      exact Nat.zero_le _
    · rw [if_neg hp] at h
      cases hj : idxOfSub t pat with
      | none => rw [hj] at h; cases h
      | some j =>
        rw [hj] at h
        have h2 : j + 1 = i := Option.some.inj h
        have hle := idxOfSub_le t pat j hj
        simp only [List.length_cons]
        omega

theorem marker_nonempty : revisionMarker ≠ [] := by decide

theorem marker_nonspace : ∀ x ∈ revisionMarker, isJsSpace x = false := by decide

/-- Modelled from the spec wording of the parsing property: the extracted
version is the text before the first occurrence of the revision marker in
the segment, trimmed; or the whole segment trimmed when the marker is
absent from the segment. -/
def specVersionOf (seg : Chars) : Chars :=
  match idxOfSub seg revisionMarker with
  | some i => jsTrim (seg.take i)
  | none => jsTrim seg

/-- The refinement at the heart of claim C4: trimming the segment before
searching for the marker (what the code does) yields the same string as
taking the text before the marker in the raw segment and trimming it
(what the spec describes). -/
theorem codeVersionOf_eq_specVersionOf (seg : Chars) :
    codeVersionOf seg = specVersionOf seg := by
  obtain ⟨w₁, w₂, hw₁, hw₂, hdec⟩ := trim_decomp seg
  have hidx : idxOfSub seg revisionMarker
      = (idxOfSub (jsTrim seg) revisionMarker).map (· + w₁.length) := by
    conv_lhs => rw [hdec]
    rw [idxOfSub_space_shift marker_nonspace marker_nonempty w₁ (jsTrim seg ++ w₂) hw₁]
    rw [idxOfSub_append_space_right marker_nonspace marker_nonempty hw₂ (jsTrim seg)]
  cases hcode : idxOfSub (jsTrim seg) revisionMarker with
  | none =>
    have hnone : idxOfSub seg revisionMarker = none := by
      rw [hidx, hcode]
      rfl
    simp only [codeVersionOf, specVersionOf, hcode, hnone]
  | some i =>
    have hsome : idxOfSub seg revisionMarker = some (i + w₁.length) := by
      rw [hidx, hcode]
      rfl
    simp only [codeVersionOf, specVersionOf, hcode, hsome]
    have hle : i ≤ (jsTrim seg).length := idxOfSub_le _ _ i hcode
    have htake : seg.take (i + w₁.length) = w₁ ++ (jsTrim seg).take i := by
      conv_lhs => rw [hdec]
      rw [Nat.add_comm i w₁.length, List.take_append i,
        List.take_append_of_le_length hle]
    rw [htake, jsTrim_space_append hw₁]

theorem jsSplit_ne_nil (sep : Char) : ∀ s : Chars, jsSplit sep s ≠ []
  | [] => by simp [jsSplit]
  | c :: rest => by
    unfold jsSplit
    by_cases h : c = sep
    · simp [h]
    · rw [if_neg h]
      cases hs : jsSplit sep rest with
      | nil => simp
      | cons a l => simp

theorem jsSplit_no_sep (sep : Char) : ∀ s : Chars, sep ∉ s → jsSplit sep s = [s]
  | [], _ => rfl
  | c :: rest, h => by
    have hc : ¬ c = sep := fun he => h (by simp [he])
    show jsSplit sep (c :: rest) = [c :: rest]
    unfold jsSplit
    rw [if_neg hc, jsSplit_no_sep sep rest (fun hm => h (by simp [hm]))]

theorem jsSplit_append (sep : Char) : ∀ (pre xs : Chars), sep ∉ pre →
    jsSplit sep (pre ++ sep :: xs) = pre :: jsSplit sep xs
  | [], xs, _ => by
    show jsSplit sep (sep :: xs) = [] :: jsSplit sep xs
    simp [jsSplit]
  | c :: pre, xs, h => by
    have hc : ¬ c = sep := fun he => h (by simp [he])
    show jsSplit sep (c :: (pre ++ sep :: xs)) = (c :: pre) :: jsSplit sep xs
    simp only [jsSplit]
    rw [if_neg hc, jsSplit_append sep pre xs (fun hm => h (by simp [hm]))]

theorem jsSplit_get1 {pre seg rest : Chars} (h1 : ':' ∉ pre) (h2 : ':' ∉ seg)
    (h3 : rest = [] ∨ ∃ r, rest = ':' :: r) :
    (jsSplit ':' (pre ++ ':' :: (seg ++ rest))).get? 1 = some seg := by
  rw [jsSplit_append ':' pre (seg ++ rest) h1]
  rcases h3 with h3 | ⟨r, h3⟩
  · subst h3
    rw [List.append_nil, jsSplit_no_sep ':' seg h2]
    rfl
  · subst h3
    rw [jsSplit_append ':' seg r h2]
    rfl

/-! The run model: platform, build targets, environment and run state. -/

/-- The host platform as reported by process.platform; the task only
distinguishes win32 from the rest. -/
inductive Platform
  | win32
  | darwin
  | linux
deriving DecidableEq

/-- The path separator of the host platform, used by the model of the
opaque Node path module. -/
def sepOf : Platform → Char
  | .win32 => '\\'
  | _ => '/'

/-- Model of the opaque Node path.join for two segments: empty segments
are ignored, otherwise the segments are joined with the platform
separator (dot-segment normalization is not modelled; the task never
passes dot segments). -/
def pathJoin (p : Platform) (a b : Chars) : Chars :=
  if a = [] then b
  else if b = [] then a
  else if a.getLast? = some (sepOf p) then a ++ b
  else a ++ sepOf p :: b

/-- Model of the opaque Node path.join for a list of segments. -/
def pathJoinList (p : Platform) : List Chars → Chars
  | [] => []
  | a :: rest => rest.foldl (pathJoin p) a

/-- Modelled from the spec: the build-target enumeration
(unity-build-target.enum.ts is not under src/).  The spec describes an
enumerated target-platform value whose only host-restricted member is
the Windows-only WindowsStoreApps (named in unity-build.ts line 126);
the remaining members are representative target platforms. -/
inductive UnityBuildTarget
  | standalone
  | Win
  | Win64
  | OSXUniversal
  | Linux64
  | iOS
  | Android
  | WebGL
  | WindowsStoreApps
deriving DecidableEq

/-- The reverse (value to name) enum mapping used for the -buildTarget
argument (unity-build.ts line 45). -/
def UnityBuildTarget.enumName : UnityBuildTarget → Chars
  | .standalone => "standalone".toList
  | .Win => "Win".toList
  | .Win64 => "Win64".toList
  | .OSXUniversal => "OSXUniversal".toList
  | .Linux64 => "Linux64".toList
  | .iOS => "iOS".toList
  | .Android => "Android".toList
  | .WebGL => "WebGL".toList
  | .WindowsStoreApps => "WindowsStoreApps".toList

/-- The forward (name to value) enum lookup used on the buildTarget input
(unity-build.ts line 106); an unknown name yields none (undefined in JS). -/
def lookupTarget (s : Chars) : Option UnityBuildTarget :=
  if s = "standalone".toList then some .standalone
  else if s = "Win".toList then some .Win
  else if s = "Win64".toList then some .Win64
  else if s = "OSXUniversal".toList then some .OSXUniversal
  else if s = "Linux64".toList then some .Linux64
  else if s = "iOS".toList then some .iOS
  else if s = "Android".toList then some .Android
  else if s = "WebGL".toList then some .WebGL
  else if s = "WindowsStoreApps".toList then some .WindowsStoreApps
  else none

/-- The named pipeline inputs read through tl.getInput / tl.getBoolInput /
tl.getPathInput.  Optional string inputs are none when not supplied;
boolean inputs default to false, as tl.getBoolInput does. -/
structure TaskInputs where
  outputFileName : Option Chars
  developmentBuild : Bool
  buildScenes : Option Chars
  buildTarget : Option Chars
  unityProjectPath : Chars
  commandLineArgumentsMode : Option Chars
  noPackageManager : Bool
  acceptApiUpdate : Bool
  noGraphics : Bool
  logFileName : Option Chars
  customCommandLineArguments : Option Chars
  unityEditorsPathMode : Option Chars
  customUnityEditorsPath : Option Chars
deriving DecidableEq

/-- The ambient environment of one task run: inputs, host platform, the
UNITYHUB_EDITORS_FOLDER_LOCATION environment variable, the two pipeline
variables the task reads, the ProjectVersion.txt content (none when the
file is missing), the initial file system and working directory. -/
structure Env where
  inputs : TaskInputs
  platform : Platform
  unityhubEditorsFolderLocation : Option Chars
  cleanBuildVar : Option Chars
  repositoryLocalPath : Chars
  projectVersionFileContent : Option Chars
  fs0 : List Chars
  cwd0 : Chars
deriving DecidableEq

/-- Modelled from the spec and from the field usage in unity-build.ts:
the flat configuration record (unity-build-configuration.model.ts is not
under src/).  buildTarget is an Option because the JS enum lookup of an
unknown name yields undefined. -/
structure UnityBuildConfiguration where
  outputFileName : Option Chars
  developmentBuild : Bool
  buildScenes : Option Chars
  buildTarget : Option UnityBuildTarget
  projectPath : Chars
  unityVersion : Chars
deriving DecidableEq

/-- getBuildConfiguration (unity-build.ts lines 101-130): reads the
inputs, parses ProjectVersion.txt, validates the version string is
nonempty and rejects the WindowsStoreApps target off Windows. -/
def getBuildConfiguration (env : Env) : Except Chars UnityBuildConfiguration :=
  match env.inputs.buildTarget with
  | none => Except.error ("Input required: buildTarget".toList)
  | some targetStr =>
    match env.projectVersionFileContent with
    | none =>
      Except.error ("ENOENT: no such file or directory, ProjectVersion.txt".toList)
    | some content =>
      match extractUnityVersion content with
      | none =>
        Except.error ("TypeError: Cannot read property trim of undefined".toList)
      | some v =>
        let cfg : UnityBuildConfiguration :=
          { outputFileName := env.inputs.outputFileName
            developmentBuild := env.inputs.developmentBuild
            buildScenes := env.inputs.buildScenes
            buildTarget := lookupTarget targetStr
            projectPath := env.inputs.unityProjectPath
            unityVersion := v }
        if v = [] then
          Except.error ("Failed to get project version from ProjectVersion.txt file.".toList)
        else if env.platform ≠ Platform.win32 ∧
            cfg.buildTarget = some UnityBuildTarget.WindowsStoreApps then
          Except.error ("Cannot build an UWP project on a Mac.".toList)
        else
          Except.ok cfg

/-- The fixed Unity Hub editors location (unity-build.ts lines 134-139). -/
def unityHubPath (p : Platform) : Chars :=
  if p = Platform.win32 then
    pathJoinList .win32
      ["C:".toList, "Program Files".toList, "Unity".toList, "Hub".toList, "Editor".toList]
  else
    pathJoinList p
      ["/".toList, "Applications".toList, "Unity".toList, "Hub".toList, "Editor".toList]

/-- getUnityEditorsPath (unity-build.ts lines 132-155): three-way
resolution of the editors folder.  Any mode other than unityHub and
environmentVariable falls into the custom-path branch. -/
def getUnityEditorsPath (env : Env) : Except Chars Chars :=
  match env.inputs.unityEditorsPathMode with
  | none => Except.error ("Input required: unityEditorsPathMode".toList)
  | some mode =>
    if mode = "unityHub".toList then
      Except.ok (unityHubPath env.platform)
    else if mode = "environmentVariable".toList then
      match env.unityhubEditorsFolderLocation with
      | none =>
        Except.error ("Expected UNITYHUB_EDITORS_FOLDER_LOCATION environment variable to be set!".toList)
      | some v =>
        if v = [] then
          Except.error ("Expected UNITYHUB_EDITORS_FOLDER_LOCATION environment variable to be set!".toList)
        else
          Except.ok v
    else
      match env.inputs.customUnityEditorsPath with
      | none =>
        Except.error ("Expected custom editors folder location to be set. Please the task configuration.".toList)
      | some v =>
        if v = [] then
          Except.error ("Expected custom editors folder location to be set. Please the task configuration.".toList)
        else
          Except.ok v

/-- One element of the assembled command line: an .arg() call appends a
single argument, a .line() call appends a raw user-supplied argument
string (the task library parses it further; the raw string is kept). -/
inductive CmdPart
  | arg (s : Chars)
  | line (s : Chars)
deriving DecidableEq

/-- The observable state of one run: the file system (the set of existing
paths), the pipeline variables set so far (in order), the files written,
the working directory, and the process invocation once launched. -/
structure RunState where
  fs : List Chars
  vars : List (Chars × Chars)
  written : List (Chars × Chars)
  cwd : Chars
  executed : Option (Chars × List CmdPart)
deriving DecidableEq

/-- Whether q lies strictly inside the directory p (model of recursive
containment used by fs.removeSync). -/
def isUnder (sep : Char) (p q : Chars) : Bool := (p ++ [sep]).isPrefixOf q

/-- Model of the opaque fs-extra removeSync: delete the path and
everything under it. -/
def removeSync (sep : Char) (fs : List Chars) (p : Chars) : List Chars :=
  fs.filter (fun q => !(q == p || isUnder sep p q))

/-- Model of the opaque tl.mkdirP: ensure the path exists. -/
def mkdirP (fs : List Chars) (p : Chars) : List Chars :=
  if p ∈ fs then fs else p :: fs

/-- Model of the opaque tl.checkPath: throw when the path does not exist. -/
def checkPath (fs : List Chars) (p : Chars) : Except Chars Unit :=
  if p ∈ fs then Except.ok () else Except.error ("Not found: ".toList ++ p)

/-- Model of the opaque tl.setVariable: record the variable assignment. -/
def setVariable (st : RunState) (k v : Chars) : RunState :=
  { st with vars := st.vars ++ [(k, v)] }

/-- The current value of a pipeline variable: the last assignment wins. -/
def lookupVar (st : RunState) (k : Chars) : Option Chars :=
  (st.vars.filterMap (fun kv => if kv.1 = k then some kv.2 else none)).getLast?

/-- Modelled from the spec: UnityBuildScriptHelper.getBuildOutputDirectory
(unity-build-script.helper.ts is not under src/); the spec says only that
it yields a target-specific relative output folder name. -/
def getBuildOutputDirectory (t : Option UnityBuildTarget) : Chars :=
  match t with
  | some u => u.enumName ++ ("Build".toList)
  | none => "Build".toList

/-- Modelled from the spec: the generated helper C# script content
(unity-build-script.helper.ts is not under src/); the spec says only that
the content encodes the build configuration. -/
def buildScriptContent (cfg : UnityBuildConfiguration) : Chars :=
  ("// AzureDevOps build script for ".toList) ++ cfg.projectPath ++
    (" version ".toList) ++ cfg.unityVersion

/-- The selected editor directory (unity-build.ts lines 17-19). -/
def unityEditorDirectory (env : Env) (cfg : UnityBuildConfiguration)
    (editorsPath : Chars) : Chars :=
  if env.platform = Platform.win32 then
    pathJoinList .win32 [editorsPath, cfg.unityVersion, "Editor".toList]
  else
    pathJoin env.platform editorsPath cfg.unityVersion

/-- The Unity executable below the editor directory (unity-build.ts
lines 41-42). -/
def unityExecutablePath (env : Env) (editorDir : Chars) : Chars :=
  if env.platform = Platform.win32 then
    pathJoin .win32 editorDir ("Unity.exe".toList)
  else
    pathJoinList env.platform
      [editorDir, "Unity.app".toList, "Contents".toList, "MacOS".toList, "Unity".toList]

/-- The full build output path (unity-build.ts line 27): project path
joined with the target-specific output folder. -/
def fullOutputPath (env : Env) (cfg : UnityBuildConfiguration) : Chars :=
  pathJoin env.platform cfg.projectPath (getBuildOutputDirectory cfg.buildTarget)

/-- The value recorded in the buildOutputPath variable (unity-build.ts
line 35): the full output path with its first repositoryLocalPath.length+1
characters removed (JS substr). -/
def buildOutputPathVarValue (repoLocal full : Chars) : Chars :=
  full.drop (repoLocal.length + 1)

/-- Output-directory preparation (unity-build.ts lines 24-35): optional
recursive clean, mkdirP, existence check, and recording of the
buildOutputPath variable. -/
def outputPrepStage (env : Env) (cfg : UnityBuildConfiguration)
    (st : RunState) : Except Chars RunState :=
  let full := fullOutputPath env cfg
  let fs1 :=
    if env.cleanBuildVar = some ("true".toList) then
      removeSync (sepOf env.platform) st.fs full
    else st.fs
  let fs2 := mkdirP fs1 full
  match checkPath fs2 full with
  | Except.error m => Except.error m
  | Except.ok _ =>
    Except.ok (setVariable { st with fs := fs2 } ("buildOutputPath".toList)
      (buildOutputPathVarValue env.repositoryLocalPath full))

/-- The three mandatory argument groups (unity-build.ts lines 43-46);
.arg(undefined) is a silent no-op in the task library, so a failed enum
lookup contributes no target name. -/
def mandatoryParts (cfg : UnityBuildConfiguration) : List CmdPart :=
  [CmdPart.arg ("-batchmode".toList), CmdPart.arg ("-buildTarget".toList)]
    ++ (match cfg.buildTarget with
        | some t => [CmdPart.arg t.enumName]
        | none => [])
    ++ [CmdPart.arg ("-projectPath".toList), CmdPart.arg cfg.projectPath]

/-- The optional default-mode flags, each gated by a boolean input
(unity-build.ts lines 49-61). -/
def defaultOptFlagParts (i : TaskInputs) : List CmdPart :=
  (if i.noPackageManager then [CmdPart.arg ("-noUpm".toList)] else [])
    ++ (if i.acceptApiUpdate then [CmdPart.arg ("-accept-apiupdate".toList)] else [])
    ++ (if i.noGraphics then [CmdPart.arg ("-nographics".toList)] else [])

/-- The log-file flag parts and recorded path (unity-build.ts lines
73-80): present only when the logFileName input is a nonempty string. -/
def logFileParts (env : Env) : List CmdPart × Option Chars :=
  match env.inputs.logFileName with
  | some n =>
    if n = [] then ([], none)
    else
      let lp := pathJoin env.platform env.repositoryLocalPath n
      ([CmdPart.arg ("-logfile".toList), CmdPart.arg lp], some lp)
  | none => ([], none)

/-- Command-line assembly (unity-build.ts lines 48-90): the required
commandLineArgumentsMode input selects the default branch (flags, script
injection, executeMethod, optional logfile) exactly when it equals
"default"; every other value appends the raw custom argument string. -/
def commandLineStage (env : Env) (cfg : UnityBuildConfiguration)
    (st : RunState) : Except Chars (RunState × List CmdPart) :=
  let base := mandatoryParts cfg
  match env.inputs.commandLineArgumentsMode with
  | none => Except.error ("Input required: commandLineArgumentsMode".toList)
  | some mode =>
    if mode = "default".toList then
      let assets :=
        pathJoinList env.platform [cfg.projectPath, "Assets".toList, "Editor".toList]
      let st1 := { st with fs := mkdirP st.fs assets, cwd := assets }
      let scriptPath := pathJoin env.platform st1.cwd ("AzureDevOps.cs".toList)
      let st2 :=
        { st1 with written := st1.written ++ [(scriptPath, buildScriptContent cfg)] }
      let st3 := { st2 with cwd := cfg.projectPath }
      let execParts :=
        [CmdPart.arg ("-executeMethod".toList), CmdPart.arg ("AzureDevOps.PerformBuild".toList)]
      let lp := logFileParts env
      let st4 :=
        match lp.2 with
        | some p => setVariable st3 ("editorLogFilePath".toList) p
        | none => st3
      Except.ok (st4, base ++ defaultOptFlagParts env.inputs ++ execParts ++ lp.1)
    else
      match env.inputs.customCommandLineArguments with
      | none => Except.error ("TypeError: argument string is undefined".toList)
      | some customStr => Except.ok (st, base ++ [CmdPart.line customStr])

/-- Model of ToolRunner.execSync (unity-build.ts line 96): fails when the
executable does not exist, otherwise records the synchronous invocation;
the result of the process is ignored by the task (the TODO on line 98). -/
def execStage (st : RunState) (exe : Chars) (parts : List CmdPart) :
    Except Chars RunState :=
  if exe ∈ st.fs then Except.ok { st with executed := some (exe, parts) }
  else Except.error ("Not found: ".toList ++ exe)

/-- The run state before anything happens. -/
def initialState (env : Env) : RunState :=
  { fs := env.fs0, vars := [], written := [], cwd := env.cwd0, executed := none }

/-- The body of run() (unity-build.ts lines 12-97), i.e. the try block:
the sequential stages with their error propagation, returning the final
observable state together with the thrown error, if any. -/
def runBody (env : Env) : RunState × Except Chars Unit :=
  let st0 := initialState env
  match getBuildConfiguration env with
  | Except.error m => (st0, Except.error m)
  | Except.ok cfg =>
    match getUnityEditorsPath env with
    | Except.error m => (st0, Except.error m)
    | Except.ok editorsPath =>
      let editorDir := unityEditorDirectory env cfg editorsPath
      match checkPath st0.fs editorDir with
      | Except.error m => (st0, Except.error m)
      | Except.ok _ =>
        match outputPrepStage env cfg st0 with
        | Except.error m => (st0, Except.error m)
        | Except.ok st1 =>
          let exe := unityExecutablePath env editorDir
          match commandLineStage env cfg st1 with
          | Except.error m => (st1, Except.error m)
          | Except.ok (st2, parts) =>
            match execStage st2 exe parts with
            | Except.error m => (st2, Except.error m)
            | Except.ok st3 => (st3, Except.ok ())

/-- The terminal results of tl.setResult. -/
inductive TaskResult
  | Succeeded
  | SucceededWithIssues
  | Failed
  | Cancelled
  | Skipped
deriving DecidableEq

/-- The whole of run() (unity-build.ts lines 11-99): the try block with
its single top-level catch, which converts a thrown error into a Failed
result via setResultFailed; no result is set when nothing throws (the
defined setResultSucceeded is never called). -/
def runTask (env : Env) : RunState × Option (TaskResult × Chars) :=
  match runBody env with
  | (st, Except.error m) => (st, some (TaskResult.Failed, m))
  | (st, Except.ok _) => (st, none)

/-! Concrete environments used by witnesses and counterexamples. -/

/-- A fully configured run on Linux in custom command-line mode with the
Unity Hub editors path: every stage succeeds. -/
def goodInputs : TaskInputs :=
  { outputFileName := none
    developmentBuild := false
    buildScenes := none
    buildTarget := some ("Android".toList)
    unityProjectPath := "/repo/proj".toList
    commandLineArgumentsMode := some ("custom".toList)
    noPackageManager := false
    acceptApiUpdate := false
    noGraphics := false
    logFileName := none
    customCommandLineArguments := some ("-quit -batchmode".toList)
    unityEditorsPathMode := some ("unityHub".toList)
    customUnityEditorsPath := none }

/-- The environment of the fully successful run: the editor directory and
the Unity executable exist, the project version file parses. -/
def goodEnv : Env :=
  { inputs := goodInputs
    platform := Platform.linux
    unityhubEditorsFolderLocation := none
    cleanBuildVar := some ("true".toList)
    repositoryLocalPath := "/repo".toList
    projectVersionFileContent := some ("m_EditorVersion: 2021.3.1f1".toList)
    fs0 := ["/Applications/Unity/Hub/Editor/2021.3.1f1".toList,
            "/Applications/Unity/Hub/Editor/2021.3.1f1/Unity.app/Contents/MacOS/Unity".toList]
    cwd0 := "/repo".toList }

/-- The configuration goodEnv resolves to. -/
def cfgGood : UnityBuildConfiguration :=
  { outputFileName := none
    developmentBuild := false
    buildScenes := none
    buildTarget := some UnityBuildTarget.Android
    projectPath := "/repo/proj".toList
    unityVersion := "2021.3.1f1".toList }

/-! Small facts about the state operations. -/

theorem mkdirP_mem (fs : List Chars) (p : Chars) : p ∈ mkdirP fs p := by
  unfold mkdirP
  by_cases h : p ∈ fs
  · rw [if_pos h]
    exact h
  · rw [if_neg h]
    exact List.mem_cons_self p fs

theorem checkPath_of_mem {fs : List Chars} {p : Chars} (h : p ∈ fs) :
    checkPath fs p = Except.ok () := by
  unfold checkPath
  rw [if_pos h]

theorem checkPath_of_not_mem {fs : List Chars} {p : Chars} (h : p ∉ fs) :
    checkPath fs p = Except.error ("Not found: ".toList ++ p) := by
  unfold checkPath
  rw [if_neg h]

theorem lookupVar_setVariable_self (st : RunState) (k v : Chars) :
    lookupVar (setVariable st k v) k = some v := by
  unfold lookupVar setVariable
  simp only [List.filterMap_append]
  rw [show List.filterMap (fun kv : Chars × Chars => if kv.1 = k then some kv.2 else none)
        [(k, v)] = [v] by simp]
  exact List.getLast?_concat _

/-- The characterization of the top-level catch: runTask keeps the state
of the try block and maps a thrown error to a Failed result and a normal
return to no result. -/
theorem runTask_eq (env : Env) :
    runTask env = ((runBody env).1,
      match (runBody env).2 with
      | Except.error m => some (TaskResult.Failed, m)
      | Except.ok _ => none) := by
  unfold runTask
  rcases runBody env with ⟨st, e⟩
  cases e <;> rfl

/-! Claim C1. -/

/-- Claim C1 counterexample: a run in which no stage throws (the try
block of run() returns normally) ends with NO terminal result at all, not
with a Succeeded terminal result, refuting the success half of the claim
as stated. -/
theorem C1_counterexample :
    (runBody goodEnv).2 = Except.ok () ∧ (runTask goodEnv).2 = none :=
  ⟨rfl, rfl⟩

/-- Claim C1 (amended): whatever error is thrown by any stage of the run
is caught once at the top level and converted into a single Failed
terminal result carrying that error's message, and a terminal result is
set exactly when some stage throws; a run in which no stage throws ends
with no terminal result (the success result is never set), and every
terminal result that is set is a Failed result carrying the thrown
message. -/
theorem C1_top_level_error_handling (env : Env) :
    (∀ m, (runBody env).2 = Except.error m →
        (runTask env).2 = some (TaskResult.Failed, m))
    ∧ ((runBody env).2 = Except.ok () → (runTask env).2 = none)
    ∧ (∀ r m, (runTask env).2 = some (r, m) →
        r = TaskResult.Failed ∧ (runBody env).2 = Except.error m) := by
  rw [runTask_eq]
  refine ⟨fun m hm => by rw [hm], fun h => by rw [h], fun r m hr => ?_⟩
  cases he : (runBody env).2 with
  | error m2 =>
    rw [he] at hr
    simp only [Option.some.injEq, Prod.mk.injEq] at hr
    exact ⟨hr.1.symm, congrArg Except.error hr.2⟩
  | ok u =>
    rw [he] at hr
    simp at hr

/-- Claim C1 witness: in the concrete all-good environment the try block
returns normally and the amended theorem yields that no terminal result
is set. -/
theorem C1_witness : (runTask goodEnv).2 = none :=
  (C1_top_level_error_handling goodEnv).2.1 rfl

/-! Claim C2. -/

/-- A run whose project path does not lie under the repository root. -/
def badPathEnv : Env :=
  { goodEnv with
    inputs := { goodInputs with unityProjectPath := "/p".toList }
    repositoryLocalPath := "/repository/root".toList }

/-- Claim C2 counterexample: with project path /p and repository root
/repository/root (so the project is not under the root), the full build
output path is /p/AndroidBuild, but the recorded buildOutputPath variable
is the empty string, which does not express that path relative to the
repository root (rejoining the root with it does not give the path back). -/
theorem C2_counterexample :
    (getBuildConfiguration badPathEnv).map (fullOutputPath badPathEnv) =
      Except.ok ("/p/AndroidBuild".toList)
    ∧ lookupVar (runTask badPathEnv).1 ("buildOutputPath".toList) = some []
    ∧ pathJoin Platform.linux badPathEnv.repositoryLocalPath [] ≠ "/p/AndroidBuild".toList :=
  ⟨rfl, rfl, by decide⟩

/-- Claim C2 (amended): whenever output-directory preparation succeeds,
the buildOutputPath variable is set to the full build output path with
its first repositoryLocalPath.length + 1 characters removed; when the
full output path lies under the repository root (root, separator, rest)
this value is exactly the root-relative path rest — but for paths not
under the root it is not a relative form of the path. -/
theorem C2_buildOutputPath_variable (env : Env) (cfg : UnityBuildConfiguration)
    (st st2 : RunState) (h : outputPrepStage env cfg st = Except.ok st2) :
    lookupVar st2 ("buildOutputPath".toList) =
      some (buildOutputPathVarValue env.repositoryLocalPath (fullOutputPath env cfg))
    ∧ ∀ rest : Chars,
        fullOutputPath env cfg = env.repositoryLocalPath ++ '/' :: rest →
        buildOutputPathVarValue env.repositoryLocalPath (fullOutputPath env cfg) = rest := by
  constructor
  · simp only [outputPrepStage] at h
    rw [checkPath_of_mem (mkdirP_mem _ _)] at h
    have h2 := Except.ok.inj h
    rw [← h2]
    exact lookupVar_setVariable_self _ _ _
  · intro rest hfull
    rw [hfull]
    unfold buildOutputPathVarValue
    have hsplit : env.repositoryLocalPath ++ '/' :: rest =
        (env.repositoryLocalPath ++ ['/']) ++ rest := by simp
    have hlen : env.repositoryLocalPath.length + 1 =
        (env.repositoryLocalPath ++ ['/']).length := by simp
    rw [hsplit, hlen, List.drop_left]

/-- The state output preparation produces in the all-good environment. -/
def prepStGood : RunState :=
  { fs := "/repo/proj/AndroidBuild".toList :: goodEnv.fs0
    vars := [("buildOutputPath".toList, "proj/AndroidBuild".toList)]
    written := []
    cwd := "/repo".toList
    executed := none }

/-- Claim C2 witness: in the all-good environment (project under the
repository root) preparation succeeds and the recorded variable is the
root-relative output path. -/
theorem C2_witness :
    outputPrepStage goodEnv cfgGood (initialState goodEnv) = Except.ok prepStGood
    ∧ lookupVar prepStGood ("buildOutputPath".toList) = some ("proj/AndroidBuild".toList) := by
  have h : outputPrepStage goodEnv cfgGood (initialState goodEnv) = Except.ok prepStGood := rfl
  have h2 := (C2_buildOutputPath_variable goodEnv cfgGood (initialState goodEnv) prepStGood h).1
  refine ⟨h, ?_⟩
  rw [h2]
  rfl

/-! Claim C3. -/

/-- The build target the run resolves from the buildTarget input through
the enum lookup. -/
def resolvedBuildTarget (env : Env) : Option UnityBuildTarget :=
  env.inputs.buildTarget.bind lookupTarget

/-- Whether a stage outcome is a thrown error. -/
def isErr {α : Type} : Except Chars α → Bool
  | Except.error _ => true
  | Except.ok _ => false

/-- Claim C3: configuration resolution throws when the resolved target is
WindowsStoreApps and the host is not Windows; for every other resolved
target, the outcome of getBuildConfiguration does not depend on the host
platform at all. -/
theorem C3_target_platform_compatibility (env : Env) :
    (env.platform ≠ Platform.win32 →
        resolvedBuildTarget env = some UnityBuildTarget.WindowsStoreApps →
        isErr (getBuildConfiguration env) = true)
    ∧ (∀ t, resolvedBuildTarget env = some t →
        t ≠ UnityBuildTarget.WindowsStoreApps →
        ∀ p q, getBuildConfiguration { env with platform := p }
          = getBuildConfiguration { env with platform := q }) := by
  obtain ⟨inputs, plat, hub, clean, repo, content, fs0, cwd0⟩ := env
  constructor
  · intro hplat htgt
    unfold resolvedBuildTarget at htgt
    dsimp only at htgt hplat
    unfold getBuildConfiguration
    dsimp only
    cases hbt : inputs.buildTarget with
    | none => rfl
    | some ts =>
      dsimp only
      rw [hbt] at htgt
      simp only [Option.some_bind] at htgt
      cases content with
      | none => rfl
      | some c =>
        dsimp only
        cases extractUnityVersion c with
        | none => rfl
        | some v =>
          dsimp only
          by_cases hempty : v = []
          · rw [if_pos hempty]
            rfl
          · rw [if_neg hempty, if_pos (show plat ≠ Platform.win32 ∧
              lookupTarget ts = some UnityBuildTarget.WindowsStoreApps from ⟨hplat, htgt⟩)]
            rfl
  · intro t htgt hne p q
    unfold resolvedBuildTarget at htgt
    dsimp only at htgt
    unfold getBuildConfiguration
    dsimp only
    cases hbt : inputs.buildTarget with
    | none => rfl
    | some ts =>
      dsimp only
      rw [hbt] at htgt
      simp only [Option.some_bind] at htgt
      cases content with
      | none => rfl
      | some c =>
        dsimp only
        cases extractUnityVersion c with
        | none => rfl
        | some v =>
          dsimp only
          by_cases hempty : v = []
          · rw [if_pos hempty, if_pos hempty]
          · have hcond : ∀ r : Platform, ¬(r ≠ Platform.win32 ∧
                lookupTarget ts = some UnityBuildTarget.WindowsStoreApps) := by
              rintro r ⟨-, hw⟩
              rw [htgt] at hw
              exact hne (Option.some.inj hw)
            rw [if_neg hempty, if_neg hempty, if_neg (hcond p), if_neg (hcond q)]

/-- The WindowsStoreApps run on a non-Windows host. -/
def wsaEnv : Env :=
  { goodEnv with
    inputs := { goodInputs with buildTarget := some ("WindowsStoreApps".toList) } }

/-- Claim C3 witness: the concrete WindowsStoreApps-on-Linux run fails
configuration resolution, and a concrete non-Windows-only target resolves
identically on two different hosts. -/
theorem C3_witness :
    isErr (getBuildConfiguration wsaEnv) = true
    ∧ getBuildConfiguration { goodEnv with platform := Platform.linux }
        = getBuildConfiguration { goodEnv with platform := Platform.darwin } := by
  constructor
  · exact (C3_target_platform_compatibility wsaEnv).1 (by decide) rfl
  · exact (C3_target_platform_compatibility goodEnv).2 UnityBuildTarget.Android rfl
      (by decide) Platform.linux Platform.darwin

/-! Claim C4. -/

/-- The text after the first colon of a string (the claim's notion), or
none when there is no colon. -/
def textAfterFirstColon (s : Chars) : Option Chars :=
  (idxOfSub s (":".toList)).map (fun i => s.drop (i + 1))

/-- Claim C4 counterexample: for the content "a: 1.0 : extra" the text
after the first colon is " 1.0 : extra", which does not contain the
revision marker, so the claim as stated predicts the extracted version
"1.0 : extra" (the whole text after the first colon, trimmed); the code
extracts "1.0" (only the text between the first and the second colon,
trimmed). -/
theorem C4_counterexample :
    textAfterFirstColon ("a: 1.0 : extra".toList) = some (" 1.0 : extra".toList)
    ∧ idxOfSub (" 1.0 : extra".toList) revisionMarker = none
    ∧ jsTrim (" 1.0 : extra".toList) = "1.0 : extra".toList
    ∧ extractUnityVersion ("a: 1.0 : extra".toList) = some ("1.0".toList)
    ∧ ("1.0".toList : Chars) ≠ "1.0 : extra".toList :=
  ⟨rfl, rfl, rfl, rfl, by decide⟩

/-- Claim C4 (amended): for every ProjectVersion.txt content, writing it
as a colon-free part, a first colon, and a segment running to the second
colon (or to the end when there is no second colon), the extracted editor
version is: the text of that segment before the first occurrence of the
revision marker, with surrounding whitespace trimmed, when the marker
occurs in the segment; and the whole segment trimmed when it does not. -/
theorem C4_version_between_colons (pre seg rest : Chars)
    (h1 : ':' ∉ pre) (h2 : ':' ∉ seg) (h3 : rest = [] ∨ ∃ r, rest = ':' :: r) :
    extractUnityVersion (pre ++ ':' :: (seg ++ rest)) = some (specVersionOf seg) := by
  unfold extractUnityVersion
  rw [jsSplit_get1 h1 h2 h3]
  dsimp only
  rw [codeVersionOf_eq_specVersionOf]

/-- A realistic ProjectVersion.txt content carrying a revision line. -/
def projectVersionContentReal : Chars :=
  "m_EditorVersion: 2021.3.1f1\nm_EditorVersionWithRevision: 2021.3.1f1 (9e7d58001ecf)".toList

/-- Claim C4 witness: on the realistic revision-bearing content the
amended theorem yields exactly the version with the marker and everything
after it excluded. -/
theorem C4_witness :
    extractUnityVersion projectVersionContentReal = some ("2021.3.1f1".toList) := by
  have h := C4_version_between_colons ("m_EditorVersion".toList)
      (" 2021.3.1f1\nm_EditorVersionWithRevision".toList)
      (':' :: " 2021.3.1f1 (9e7d58001ecf)".toList)
      (by decide) (by decide) (Or.inr ⟨_, rfl⟩)
  rw [show projectVersionContentReal =
      "m_EditorVersion".toList ++ ':' :: (" 2021.3.1f1\nm_EditorVersionWithRevision".toList
        ++ (':' :: " 2021.3.1f1 (9e7d58001ecf)".toList)) from rfl]
  rw [h]
  decide

/-! Claim C5. -/

/-- Claim C5: in custom command-line mode the assembled command is exactly
the three mandatory flag groups followed by the raw user-supplied custom
argument string; no default-mode optional flag is appended, for every
combination of the per-flag boolean inputs and the log-file input (the
env is arbitrary apart from the mode and the custom string), and the run
state is left untouched by command assembly. -/
theorem C5_custom_mode (env : Env) (cfg : UnityBuildConfiguration) (st : RunState)
    (t : UnityBuildTarget) (s : Chars)
    (hmode : env.inputs.commandLineArgumentsMode = some ("custom".toList))
    (hcustom : env.inputs.customCommandLineArguments = some s)
    (htarget : cfg.buildTarget = some t) :
    commandLineStage env cfg st = Except.ok (st,
      [CmdPart.arg ("-batchmode".toList),
       CmdPart.arg ("-buildTarget".toList), CmdPart.arg t.enumName,
       CmdPart.arg ("-projectPath".toList), CmdPart.arg cfg.projectPath,
       CmdPart.line s]) := by
  unfold commandLineStage
  rw [hmode]
  dsimp only
  rw [if_neg (by decide : ¬ ("custom".toList = "default".toList)), hcustom]
  dsimp only
  unfold mandatoryParts
  rw [htarget]
  rfl

/-- Claim C5 witness: the concrete custom-mode run assembles exactly the
mandatory flags followed by the literal custom string. -/
theorem C5_witness :
    commandLineStage goodEnv cfgGood (initialState goodEnv) =
      Except.ok (initialState goodEnv,
        [CmdPart.arg ("-batchmode".toList),
         CmdPart.arg ("-buildTarget".toList), CmdPart.arg ("Android".toList),
         CmdPart.arg ("-projectPath".toList), CmdPart.arg ("/repo/proj".toList),
         CmdPart.line ("-quit -batchmode".toList)]) :=
  C5_custom_mode goodEnv cfgGood (initialState goodEnv) UnityBuildTarget.Android
    ("-quit -batchmode".toList) rfl rfl rfl

/-! Claim C6. -/

theorem not_isUnder_self (sep : Char) (p : Chars) : isUnder sep p p = false := by
  unfold isUnder
  by_contra h
  rw [Bool.not_eq_false] at h
  have hpre := List.isPrefixOf_iff_prefix.mp h
  have hlen := hpre.length_le
  simp at hlen

theorem removeSync_not_under (sep : Char) (fs : List Chars) (p q : Chars)
    (h : q ∈ removeSync sep fs p) : isUnder sep p q = false := by
  unfold removeSync at h
  rw [List.mem_filter] at h
  have h2 := h.2
  cases hu : isUnder sep p q
  · rfl
  · rw [hu] at h2
    simp at h2

theorem mem_mkdirP_cases {fs : List Chars} {p q : Chars} (h : q ∈ mkdirP fs p) :
    q = p ∨ q ∈ fs := by
  unfold mkdirP at h
  by_cases hin : p ∈ fs
  · rw [if_pos hin] at h
    exact Or.inr h
  · rw [if_neg hin] at h
    exact List.mem_cons.mp h

/-- Claim C6: output-directory preparation always succeeds in creating
the output directory (it exists in the resulting state); when the clean
flag is the string true, the resulting directory is empty — nothing in
the resulting file system lies under it; and the validation step fails
exactly on a path that does not exist. -/
theorem C6_output_directory_preparation (env : Env) (cfg : UnityBuildConfiguration)
    (st : RunState) :
    (∃ st2, outputPrepStage env cfg st = Except.ok st2
        ∧ fullOutputPath env cfg ∈ st2.fs
        ∧ (env.cleanBuildVar = some ("true".toList) →
            ∀ q ∈ st2.fs,
              isUnder (sepOf env.platform) (fullOutputPath env cfg) q = false))
    ∧ (∀ fs p, p ∉ fs → checkPath fs p = Except.error (("Not found: ".toList) ++ p)) := by
  constructor
  · have heq : outputPrepStage env cfg st = Except.ok (setVariable { st with fs := mkdirP (if env.cleanBuildVar = some ("true".toList) then removeSync (sepOf env.platform) st.fs (fullOutputPath env cfg) else st.fs) (fullOutputPath env cfg) } ("buildOutputPath".toList) (buildOutputPathVarValue env.repositoryLocalPath (fullOutputPath env cfg))) := by
      simp only [outputPrepStage]
      rw [checkPath_of_mem (mkdirP_mem _ _)]
    refine ⟨_, heq, mkdirP_mem _ _, ?_⟩
    intro hclean q hq
    rw [hclean] at hq
    rw [if_pos rfl] at hq
    have hq2 : q ∈ mkdirP (removeSync (sepOf env.platform) st.fs (fullOutputPath env cfg))
        (fullOutputPath env cfg) := hq
    rcases mem_mkdirP_cases hq2 with h | h
    · rw [h]
      exact not_isUnder_self _ _
    · exact removeSync_not_under _ _ _ _ h
  · intro fs p hp
    exact checkPath_of_not_mem hp

/-- Claim C6 witness: in the concrete clean-build environment preparation
succeeds, the output directory exists and nothing lies under it, and the
validation step rejects a missing path. -/
theorem C6_witness :
    (∃ st2, outputPrepStage goodEnv cfgGood (initialState goodEnv) = Except.ok st2
        ∧ fullOutputPath goodEnv cfgGood ∈ st2.fs
        ∧ ∀ q ∈ st2.fs,
            isUnder (sepOf goodEnv.platform) (fullOutputPath goodEnv cfgGood) q = false)
    ∧ checkPath [] ("/missing".toList) =
        Except.error (("Not found: ".toList) ++ "/missing".toList) := by
  obtain ⟨⟨st2, h1, h2, h3⟩, h4⟩ :=
    C6_output_directory_preparation goodEnv cfgGood (initialState goodEnv)
  exact ⟨⟨st2, h1, h2, h3 rfl⟩, h4 [] ("/missing".toList) (by simp)⟩

/-! Claim C7. -/

theorem isErr_eq_true_iff {α : Type} (e : Except Chars α) :
    isErr e = true ↔ ∃ m, e = Except.error m := by
  cases e <;> simp [isErr]

/-- When editors-path resolution throws (or configuration before it),
the try block ends in an error without any process having been launched. -/
theorem runBody_editors_err (env : Env) (h : isErr (getUnityEditorsPath env) = true) :
    isErr (runBody env).2 = true ∧ (runBody env).1.executed = none := by
  unfold runBody
  cases hg : getBuildConfiguration env with
  | error m => exact ⟨rfl, rfl⟩
  | ok cfg =>
    cases he : getUnityEditorsPath env with
    | error m => exact ⟨rfl, rfl⟩
    | ok p =>
      rw [he] at h
      simp [isErr] at h

/-- Claim C7: in environmentVariable mode, an unset or empty
UNITYHUB_EDITORS_FOLDER_LOCATION makes getUnityEditorsPath throw, the run
end in a Failed result, and no process is ever launched; a nonempty value
is returned as the editors path. -/
theorem C7_environment_variable_mode (env : Env)
    (hmode : env.inputs.unityEditorsPathMode = some ("environmentVariable".toList)) :
    ((env.unityhubEditorsFolderLocation = none ∨
        env.unityhubEditorsFolderLocation = some []) →
        isErr (getUnityEditorsPath env) = true
        ∧ (∃ m, (runTask env).2 = some (TaskResult.Failed, m))
        ∧ (runTask env).1.executed = none)
    ∧ (∀ v, env.unityhubEditorsFolderLocation = some v → v ≠ [] →
        getUnityEditorsPath env = Except.ok v) := by
  have herr : (env.unityhubEditorsFolderLocation = none ∨
      env.unityhubEditorsFolderLocation = some []) →
      isErr (getUnityEditorsPath env) = true := by
    intro hv
    unfold getUnityEditorsPath
    rw [hmode]
    dsimp only
    rw [if_neg (by decide : ¬ ("environmentVariable".toList = "unityHub".toList)),
      if_pos rfl]
    rcases hv with hv | hv <;> rw [hv]
    · rfl
    · dsimp only
      rw [if_pos rfl]
      rfl
  constructor
  · intro hv
    have hbody := runBody_editors_err env (herr hv)
    refine ⟨herr hv, ?_, ?_⟩
    · obtain ⟨m, hm⟩ := (isErr_eq_true_iff _).mp hbody.1
      refine ⟨m, ?_⟩
      rw [runTask_eq]
      dsimp only
      rw [hm]
    · rw [runTask_eq]
      exact hbody.2
  · intro v hv hne
    unfold getUnityEditorsPath
    rw [hmode]
    dsimp only
    rw [if_neg (by decide : ¬ ("environmentVariable".toList = "unityHub".toList)),
      if_pos rfl, hv]
    dsimp only
    rw [if_neg hne]

/-- The environmentVariable-mode run with the variable unset. -/
def envVarUnsetEnv : Env :=
  { goodEnv with
    inputs := { goodInputs with unityEditorsPathMode := some ("environmentVariable".toList) }
    unityhubEditorsFolderLocation := none }

/-- Claim C7 witness: with the variable unset the concrete run fails with
no process launched; with a nonempty value that value is returned. -/
theorem C7_witness :
    isErr (getUnityEditorsPath envVarUnsetEnv) = true
    ∧ (∃ m, (runTask envVarUnsetEnv).2 = some (TaskResult.Failed, m))
    ∧ (runTask envVarUnsetEnv).1.executed = none
    ∧ getUnityEditorsPath
        { envVarUnsetEnv with unityhubEditorsFolderLocation := some ("/editors".toList) }
        = Except.ok ("/editors".toList) := by
  obtain ⟨h1, h2, h3⟩ := (C7_environment_variable_mode envVarUnsetEnv rfl).1 (Or.inl rfl)
  exact ⟨h1, h2, h3,
    (C7_environment_variable_mode _ rfl).2 ("/editors".toList) rfl (by decide)⟩

/-! Claim C8. -/

theorem logfile_not_mem_optFlags (i : TaskInputs) :
    CmdPart.arg ("-logfile".toList) ∉ defaultOptFlagParts i := by
  rcases Bool.eq_false_or_eq_true i.noPackageManager with h1 | h1 <;>
    rcases Bool.eq_false_or_eq_true i.acceptApiUpdate with h2 | h2 <;>
    rcases Bool.eq_false_or_eq_true i.noGraphics with h3 | h3 <;>
    simp [defaultOptFlagParts, h1, h2, h3]

/-- Claim C8: in default mode with a nonempty log-file name the command
ends with the -logfile flag followed by the repository root joined with
the file name, and the editorLogFilePath variable records that same path;
with the input absent or empty no -logfile flag appears (the parts are
exactly the mandatory, optional-flag and executeMethod parts, none of
which is the -logfile flag) and no variable is recorded. -/
theorem C8_logfile_handling (env : Env) (cfg : UnityBuildConfiguration) (st : RunState)
    (hmode : env.inputs.commandLineArgumentsMode = some ("default".toList)) :
    (∀ n, env.inputs.logFileName = some n → n ≠ [] →
        ∃ st2, commandLineStage env cfg st = Except.ok (st2,
            mandatoryParts cfg ++ defaultOptFlagParts env.inputs
              ++ [CmdPart.arg ("-executeMethod".toList),
                  CmdPart.arg ("AzureDevOps.PerformBuild".toList)]
              ++ [CmdPart.arg ("-logfile".toList),
                  CmdPart.arg (pathJoin env.platform env.repositoryLocalPath n)])
          ∧ lookupVar st2 ("editorLogFilePath".toList)
              = some (pathJoin env.platform env.repositoryLocalPath n)
          ∧ st2.vars = st.vars
              ++ [(("editorLogFilePath".toList),
                   pathJoin env.platform env.repositoryLocalPath n)])
    ∧ ((env.inputs.logFileName = none ∨ env.inputs.logFileName = some []) →
        ∃ st2 parts, commandLineStage env cfg st = Except.ok (st2, parts)
          ∧ st2.vars = st.vars
          ∧ parts = mandatoryParts cfg ++ defaultOptFlagParts env.inputs
              ++ [CmdPart.arg ("-executeMethod".toList),
                  CmdPart.arg ("AzureDevOps.PerformBuild".toList)]
          ∧ CmdPart.arg ("-logfile".toList) ∉ defaultOptFlagParts env.inputs) := by
  constructor
  · intro n hn hne
    have hlp : logFileParts env =
        ([CmdPart.arg ("-logfile".toList),
          CmdPart.arg (pathJoin env.platform env.repositoryLocalPath n)],
         some (pathJoin env.platform env.repositoryLocalPath n)) := by
      unfold logFileParts
      rw [hn]
      dsimp only
      rw [if_neg hne]
    unfold commandLineStage
    rw [hmode]
    dsimp only
    rw [if_pos rfl, hlp]
    dsimp only
    refine ⟨_, rfl, lookupVar_setVariable_self _ _ _, rfl⟩
  · intro hv
    have hlp : logFileParts env = ([], none) := by
      unfold logFileParts
      rcases hv with hv | hv <;> rw [hv]
      rfl
    unfold commandLineStage
    rw [hmode]
    dsimp only
    rw [if_pos rfl, hlp]
    dsimp only
    refine ⟨_, _, rfl, rfl, by simp, logfile_not_mem_optFlags env.inputs⟩

/-- The default-mode run with a configured log file. -/
def logEnv : Env :=
  { goodEnv with
    inputs := { goodInputs with
      commandLineArgumentsMode := some ("default".toList)
      logFileName := some ("build.log".toList) } }

/-- Claim C8 witness: with repository root /repo and log file name
build.log the recorded path is /repo/build.log and the command ends with
the -logfile flag pointing at it. -/
theorem C8_witness :
    ∃ st2, commandLineStage logEnv cfgGood (initialState logEnv) = Except.ok (st2,
        mandatoryParts cfgGood ++ defaultOptFlagParts logEnv.inputs
          ++ [CmdPart.arg ("-executeMethod".toList),
              CmdPart.arg ("AzureDevOps.PerformBuild".toList)]
          ++ [CmdPart.arg ("-logfile".toList), CmdPart.arg ("/repo/build.log".toList)])
      ∧ lookupVar st2 ("editorLogFilePath".toList) = some ("/repo/build.log".toList) := by
  obtain ⟨st2, h1, h2, h3⟩ := (C8_logfile_handling logEnv cfgGood (initialState logEnv) rfl).1
    ("build.log".toList) rfl (by decide)
  exact ⟨st2, h1, h2⟩

/-! Claim C9. -/

/-- Claim C9: configuration resolution throws whenever the version file
is missing, its content is unparseable (no colon), or the extracted
version string is empty; dually, a successfully returned configuration
never carries an empty version string (and, versions being total strings
in the model, never a missing one). -/
theorem C9_version_validation (env : Env) :
    (env.projectVersionFileContent = none → isErr (getBuildConfiguration env) = true)
    ∧ (∀ c, env.projectVersionFileContent = some c →
        (extractUnityVersion c = none ∨ extractUnityVersion c = some []) →
        isErr (getBuildConfiguration env) = true)
    ∧ (∀ cfg, getBuildConfiguration env = Except.ok cfg → cfg.unityVersion ≠ []) := by
  obtain ⟨inputs, plat, hub, clean, repo, content, fs0, cwd0⟩ := env
  refine ⟨?_, ?_, ?_⟩
  · intro hc
    dsimp only at hc
    subst hc
    unfold getBuildConfiguration
    cases inputs.buildTarget <;> rfl
  · intro c hc hv
    dsimp only at hc
    subst hc
    unfold getBuildConfiguration
    dsimp only
    cases inputs.buildTarget with
    | none => rfl
    | some ts =>
      dsimp only
      rcases hv with hv | hv <;> rw [hv]
      · rfl
      · dsimp only
        rw [if_pos rfl]
        rfl
  · intro cfg hcfg
    unfold getBuildConfiguration at hcfg
    dsimp only at hcfg
    cases hbt : inputs.buildTarget with
    | none =>
      rw [hbt] at hcfg
      simp at hcfg
    | some ts =>
      rw [hbt] at hcfg
      dsimp only at hcfg
      cases content with
      | none => simp at hcfg
      | some c =>
        dsimp only at hcfg
        cases hv : extractUnityVersion c with
        | none =>
          rw [hv] at hcfg
          simp at hcfg
        | some v =>
          rw [hv] at hcfg
          dsimp only at hcfg
          by_cases hempty : v = []
          · rw [if_pos hempty] at hcfg
            simp at hcfg
          · rw [if_neg hempty] at hcfg
            by_cases hw : plat ≠ Platform.win32 ∧
                lookupTarget ts = some UnityBuildTarget.WindowsStoreApps
            · rw [if_pos hw] at hcfg
              simp at hcfg
            · rw [if_neg hw] at hcfg
              have hinj := Except.ok.inj hcfg
              rw [← hinj]
              exact hempty

/-- Claim C9 witness: a colon-free version file makes resolution throw,
and the configuration of the all-good run has a nonempty version. -/
theorem C9_witness :
    isErr (getBuildConfiguration
        { goodEnv with projectVersionFileContent := some ("nocolon".toList) }) = true
    ∧ cfgGood.unityVersion ≠ [] :=
  ⟨(C9_version_validation _).2.1 ("nocolon".toList) rfl (Or.inl rfl),
   (C9_version_validation goodEnv).2.2 cfgGood rfl⟩

/-! Claim C10. -/

/-- Claim C10: every unityEditorsPathMode value other than unityHub and
environmentVariable resolves through the customUnityEditorsPath input —
a nonempty value is returned, a missing or empty one throws; and in
unityHub mode the fixed platform-specific path is returned with no
failure and no file-system access at all. -/
theorem C10_editors_path_resolution (env : Env) :
    (∀ m, env.inputs.unityEditorsPathMode = some m →
        m ≠ "unityHub".toList → m ≠ "environmentVariable".toList →
        (∀ v, env.inputs.customUnityEditorsPath = some v → v ≠ [] →
            getUnityEditorsPath env = Except.ok v)
        ∧ ((env.inputs.customUnityEditorsPath = none ∨
              env.inputs.customUnityEditorsPath = some []) →
            isErr (getUnityEditorsPath env) = true))
    ∧ (env.inputs.unityEditorsPathMode = some ("unityHub".toList) →
        getUnityEditorsPath env = Except.ok (unityHubPath env.platform)) := by
  constructor
  · intro m hm hm1 hm2
    constructor
    · intro v hv hne
      unfold getUnityEditorsPath
      rw [hm]
      dsimp only
      rw [if_neg hm1, if_neg hm2, hv]
      dsimp only
      rw [if_neg hne]
    · intro hv
      unfold getUnityEditorsPath
      rw [hm]
      dsimp only
      rw [if_neg hm1, if_neg hm2]
      rcases hv with hv | hv <;> rw [hv]
      · rfl
      · dsimp only
        rw [if_pos rfl]
        rfl
  · intro hm
    unfold getUnityEditorsPath
    rw [hm]
    dsimp only
    rw [if_pos rfl]

/-- A run whose editors-path mode is an arbitrary value that is neither
unityHub nor environmentVariable (and also not the documented custom). -/
def weirdModeEnv : Env :=
  { goodEnv with
    inputs := { goodInputs with
      unityEditorsPathMode := some ("weirdMode".toList)
      customUnityEditorsPath := some ("/custom/editors".toList) } }

/-- Claim C10 witness: the arbitrary non-hub non-environment mode value
resolves via the custom path, fails when that path is missing, and the
unityHub mode returns the fixed path. -/
theorem C10_witness :
    getUnityEditorsPath weirdModeEnv = Except.ok ("/custom/editors".toList)
    ∧ isErr (getUnityEditorsPath
        { weirdModeEnv with
          inputs := { weirdModeEnv.inputs with customUnityEditorsPath := none } }) = true
    ∧ getUnityEditorsPath goodEnv = Except.ok (unityHubPath goodEnv.platform) := by
  refine ⟨?_, ?_, ?_⟩
  · exact ((C10_editors_path_resolution weirdModeEnv).1 ("weirdMode".toList) rfl
      (by decide) (by decide)).1 ("/custom/editors".toList) rfl (by decide)
  · exact ((C10_editors_path_resolution _).1 ("weirdMode".toList) rfl
      (by decide) (by decide)).2 (Or.inl rfl)
  · exact (C10_editors_path_resolution goodEnv).2 rfl

end UnityBuildV3
